import Mathlib

/-!
Shallow embedding of the evolutionary search engine in
`src/evolvattention/evolve/evolution.py`.

Python floats are modelled as rationals (`Rat`); Python strings as `List Char`;
randomness (`random.random`, `random.randint`, `random.choice`, `random.sample`,
`random.choices`) as two explicit streams of draws threaded through the code;
Python exceptions as `Except String`; the unbounded shortfall-fill `while` loop
as a fuel-indexed recursion returning `Option` (`none` models non-termination).
The Fitness Oracle (`vecbook_index`) is an abstract record of the four
capabilities the engine consumes.
-/

namespace Evolve

/-- Status tag of the dict-shaped results (`"success"` / `"error"`). -/
inductive RStatus where
  | success
  | error
deriving DecidableEq, Repr

/-- The `Individual` dataclass: `text`, `fitness` (default 0.0), `attention_scores`
(default `[]`).  The `embedding` field is always `None` on every engine-created
individual and is omitted. -/
structure Individual where
  text : List Char
  fitness : Rat := 0
  attention_scores : List Rat := []
deriving DecidableEq, Repr

/-- The `Population` dataclass fields. -/
structure Population where
  individuals : List Individual
  target_barycenter : Option (List Rat)
  generation : Nat := 0
  best_fitness : Rat := 0
  average_fitness : Rat := 0
deriving DecidableEq, Repr

/-- Engine state: run parameters plus the mutable evolution state of
`EvolutionaryAlgorithm`.  `output_length` is `none` until
`initialize_population` sets it (`getattr(self, 'output_length', 100)`). -/
structure EAState where
  population_size : Nat
  elite_size : Nat
  tournament_size : Nat
  crossover_rate : Rat
  mutation_rate : Rat
  population : Option Population := none
  generation : Nat := 0
  fitness_history : List Rat := []
  output_length : Option Nat := none
deriving DecidableEq, Repr

/-- Fitness Oracle (`vecbook_index`) as consumed by the engine.
`compare` models `compare_against_barycenter([text])`: `.error e` is a raised
exception, `.ok none` an empty result list, `.ok (some sim)` the first result's
`cosine_similarity`. -/
structure Oracle where
  set_target_strings : List (List Char) → RStatus × String
  get_target_info : RStatus × String
  target_barycenter : Option (List Rat)
  compare : List Char → Except String (Option Rat)

/-- Dict-shaped result of `initialize_population` / `evolve_generation`. -/
structure ApiResult where
  status : RStatus := .error
  message : String := ""
  generation : Nat := 0
  best_fitness : Rat := 0
  average_fitness : Rat := 0
  population_size : Nat := 0
deriving DecidableEq, Repr

/-- Dict-shaped result of `get_status`. -/
structure StatusResult where
  status : RStatus := .error
  message : String := ""
  current_generation : Nat := 0
  best_fitness : Rat := 0
  average_fitness : Rat := 0
  convergence_rate : Rat := 0
  best_string : List Char := []
  is_complete : Bool := false
  population_size : Nat := 0
deriving DecidableEq, Repr

/-- Explicit random source: a stream of `random.random()` draws and a stream of
integer draws backing `randint` / `choice` / `sample` / `choices`. -/
structure Rng where
  floats : Nat → Rat
  nats : Nat → Nat
  fpos : Nat := 0
  npos : Nat := 0

/-- Draw the next `random.random()` value. -/
def nextRandom (r : Rng) : Rat × Rng :=
  (r.floats r.fpos, { r with fpos := r.fpos + 1 })

/-- Draw the next raw integer (reduced mod the needed range at use sites). -/
def nextNat (r : Rng) : Nat × Rng :=
  (r.nats r.npos, { r with npos := r.npos + 1 })

/-- Constant `POPULATION_ALPHABET = " abcdefghijklmnopqrstuvwxyz"`. -/
def POPULATION_ALPHABET : List Char := " abcdefghijklmnopqrstuvwxyz".toList

/-- Python `random.choices(POPULATION_ALPHABET, k=n)`: `n` independent draws. -/
def randChars : Nat → Rng → List Char × Rng
  | 0, rng => ([], rng)
  | n + 1, rng =>
    let (i, rng1) := nextNat rng
    let c := POPULATION_ALPHABET.getD (i % POPULATION_ALPHABET.length) ' '
    let (rest, rng2) := randChars n rng1
    (c :: rest, rng2)

/-- ASCII whitespace stripped by Python `str.strip()`. -/
def isPySpace (c : Char) : Bool :=
  c = ' ' || c = '\t' || c = '\n' || c = '\x0b' || c = '\x0c' || c = '\r'

/-- Python `str.strip()`. -/
def pyStrip (s : List Char) : List Char :=
  ((s.dropWhile isPySpace).reverse.dropWhile isPySpace).reverse

/-- Python `str.ljust(n)` (pad on the right with spaces). -/
def ljust (s : List Char) (n : Nat) : List Char :=
  s ++ List.replicate (n - s.length) ' '

/-- Python `max(l)` on rationals (0.0 for the guarded-empty case). -/
def pyMaxRat : List Rat → Rat
  | [] => 0
  | x :: xs => xs.foldl max x

/-- Python `max(l, key=lambda x: x.fitness)` keeps the first of equals; raises
`ValueError` on an empty sequence. -/
def pyMaxByFitness : List Individual → Except String Individual
  | [] => .error "max() arg is an empty sequence"
  | x :: xs => .ok (xs.foldl (fun a b => if b.fitness > a.fitness then b else a) x)

/-- Method `Population._update_statistics`. -/
def updateStatistics (p : Population) : Population :=
  let fitnesses := p.individuals.map (·.fitness)
  { p with
    best_fitness := if fitnesses = [] then 0 else pyMaxRat fitnesses
    average_fitness :=
      if fitnesses = [] then 0 else fitnesses.sum / (fitnesses.length : Rat) }

/-- Stable descending insert: an element goes before the first position whose
fitness does not exceed it, so earlier elements keep their place among equals. -/
def insertByFitness (a : Individual) : List Individual → List Individual
  | [] => [a]
  | b :: t => if b.fitness > a.fitness then b :: insertByFitness a t else a :: b :: t

/-- Method `Population.sort_by_fitness`: stable sort, best (highest fitness) first.
CPython's `list.sort` is a stable sort and a stable sort by a key is a unique
function of its input, so this structurally recursive stable insertion sort
computes the same list. -/
def sort_by_fitness : List Individual → List Individual
  | [] => []
  | x :: xs => insertByFitness x (sort_by_fitness xs)

/-- Method `Population.get_best_individual`. -/
def get_best_individual (p : Population) : Option Individual :=
  match p.individuals with
  | [] => none
  | x :: xs => some (xs.foldl (fun a b => if b.fitness > a.fitness then b else a) x)

/-- Constructing `Population(...)`: `__post_init__` raises on a present,
zero-length `target_barycenter`, then recomputes statistics when `individuals`
is non-empty. -/
def mkPopulation (individuals : List Individual) (tb : Option (List Rat))
    (generation : Nat) : Except String Population :=
  match tb with
  | some v =>
    if v.length = 0 then .error "target_barycenter cannot be an empty array"
    else
      let p : Population :=
        { individuals := individuals, target_barycenter := some v, generation := generation }
      .ok (if individuals = [] then p else updateStatistics p)
  | none =>
    let p : Population :=
      { individuals := individuals, target_barycenter := none, generation := generation }
    .ok (if individuals = [] then p else updateStatistics p)

/-- Method `EvolutionaryAlgorithm._evaluate_fitness`: clamp the similarity into
[0,1]; a raised Oracle exception or an empty result list yields 0.0. -/
def evaluate_fitness (o : Oracle) (ind : Individual) : Rat :=
  match o.compare ind.text with
  | .error _ => 0
  | .ok none => 0
  | .ok (some sim) => max 0 (min 1 sim)

/-- Method `EvolutionaryAlgorithm._generate_initial_variation`: a uniformly random
string of `output_length` (default 100) characters from the alphabet. -/
def generate_initial_variation (st : EAState) (rng : Rng) : List Char × Rng :=
  randChars (st.output_length.getD 100) rng

/-- Python `random.choice(l)`: raises `IndexError` on an empty sequence. -/
def pyChoice : List Individual → Rng → Except String (Individual × Rng)
  | [], _ => .error "Cannot choose from empty sequence"
  | x :: xs, rng =>
    let (n, rng1) := nextNat rng
    .ok ((x :: xs).getD (n % (xs.length + 1)) x, rng1)

/-- Core of `random.sample`: pick `k` distinct positions one at a time
(pick an index into what remains, remove it). -/
def pySampleAux : Nat → List Individual → Rng → List Individual × Rng
  | 0, _, rng => ([], rng)
  | _ + 1, [], rng => ([], rng)
  | k + 1, x :: xs, rng =>
    let nr := nextNat rng
    let i := nr.1 % (xs.length + 1)
    let picked := (x :: xs).getD i x
    let rest := (x :: xs).eraseIdx i
    let ps := pySampleAux k rest nr.2
    (picked :: ps.1, ps.2)

/-- Python `random.sample(l, k)`: raises `ValueError` when `k` exceeds the population
of the sequence. -/
def pySample (l : List Individual) (k : Nat) (rng : Rng) :
    Except String (List Individual × Rng) :=
  if l.length < k then .error "Sample larger than population or is negative"
  else .ok (pySampleAux k l rng)

/-- Method `EvolutionaryAlgorithm._select_parents`: tournament selection for parent 1;
parent 2 is a fresh random string with probability 0.25, otherwise a second
tournament over the population with parent 1 excluded (degrading to all
remaining candidates, then to parent 1 itself). -/
def select_parents (st : EAState) (inds : List Individual) (rng : Rng) :
    Except String (Individual × Individual × Rng) :=
  match pySample inds st.tournament_size rng with
  | .error e => .error e
  | .ok s =>
    let tournament1 := s.1
    let rng1 := s.2
    match pyMaxByFitness tournament1 with
    | .error e => .error e
    | .ok parent1 =>
      let fr := nextRandom rng1
      let f := fr.1
      let rng2 := fr.2
      if f < (1/4 : Rat) then
        let g := generate_initial_variation st rng2
        .ok (parent1, { text := g.1 }, g.2)
      else
        let remaining := inds.filter (fun i => decide (i ≠ parent1))
        if st.tournament_size ≤ remaining.length then
          match pySample remaining st.tournament_size rng2 with
          | .error e => .error e
          | .ok s2 =>
            .ok (parent1,
                 (match s2.1 with
                  | [] => parent1
                  | x :: xs => xs.foldl (fun a b => if b.fitness > a.fitness then b else a) x),
                 s2.2)
        else
          .ok (parent1,
               (match remaining with
                | [] => parent1
                | x :: xs => xs.foldl (fun a b => if b.fitness > a.fitness then b else a) x),
               rng2)

/-- The per-position 50/50 character mix of `_crossover` (both argument lists
have equal length after padding). -/
def mixChars : List Char → List Char → Rng → List Char × Rng
  | c1 :: t1, c2 :: t2, rng =>
    let (f, rng1) := nextRandom rng
    let c := if f < (1/2 : Rat) then c1 else c2
    let (rest, rng2) := mixChars t1 t2 rng1
    (c :: rest, rng2)
  | _, _, rng => ([], rng)

/-- Method `EvolutionaryAlgorithm._crossover`: pad both parents with spaces to the
longer length, mix per position, strip; on an empty strip fall back to parent
1's stripped text, else parent 2's. -/
def crossover (p1 p2 : Individual) (rng : Rng) : Individual × Rng :=
  let maxLen := max p1.text.length p2.text.length
  let text1 := ljust p1.text maxLen
  let text2 := ljust p2.text maxLen
  let m := mixChars text1 text2 rng
  let stripped := pyStrip m.1
  let offspring_text :=
    if stripped = [] then
      (if pyStrip text1 = [] then pyStrip text2 else pyStrip text1)
    else stripped
  ({ text := offspring_text }, m.2)

/-- Mutation trial 1 (substitution): replace the character at a random
position, only on non-empty text. -/
def mutateSub (rate : Rat) (t : List Char) (rng : Rng) : List Char × Rng :=
  let (f, rng1) := nextRandom rng
  if f < rate then
    if t = [] then (t, rng1)
    else
      let (n, rng2) := nextNat rng1
      let pos := n % t.length
      let (m, rng3) := nextNat rng2
      let c := POPULATION_ALPHABET.getD (m % POPULATION_ALPHABET.length) ' '
      (t.take pos ++ c :: t.drop (pos + 1), rng3)
  else (t, rng1)

/-- Mutation trial 2 (insertion): insert a random character at a random
position in [0, len], only on non-empty text. -/
def mutateIns (rate : Rat) (t : List Char) (rng : Rng) : List Char × Rng :=
  let (f, rng1) := nextRandom rng
  if f < rate then
    if t = [] then (t, rng1)
    else
      let (n, rng2) := nextNat rng1
      let pos := n % (t.length + 1)
      let (m, rng3) := nextNat rng2
      let c := POPULATION_ALPHABET.getD (m % POPULATION_ALPHABET.length) ' '
      (t.take pos ++ c :: t.drop pos, rng3)
  else (t, rng1)

/-- Mutation trial 3 (deletion): remove the character at a random position,
only when the text has length > 1. -/
def mutateDel (rate : Rat) (t : List Char) (rng : Rng) : List Char × Rng :=
  let (f, rng1) := nextRandom rng
  if f < rate then
    if t.length > 1 then
      let (n, rng2) := nextNat rng1
      let pos := n % t.length
      (t.take pos ++ t.drop (pos + 1), rng2)
    else (t, rng1)
  else (t, rng1)

/-- Method `EvolutionaryAlgorithm._mutate`: the three Bernoulli trials in order, each
seeing the result of the previous, returning a fresh Individual. -/
def mutate (rate : Rat) (ind : Individual) (rng : Rng) : Individual × Rng :=
  let s := mutateSub rate ind.text rng
  let i := mutateIns rate s.1 s.2
  let d := mutateDel rate i.1 i.2
  ({ text := d.1 }, d.2)

/-- One offspring construction of the generation loop: crossover with
probability `crossover_rate`, else clone a uniformly random individual's text. -/
def offspringStep (st : EAState) (inds : List Individual) (rng : Rng) :
    Except String (Individual × Rng) :=
  let fr := nextRandom rng
  let f := fr.1
  let rng1 := fr.2
  if f < st.crossover_rate then
    match select_parents st inds rng1 with
    | .error e => .error e
    | .ok ps => .ok (crossover ps.1 ps.2.1 ps.2.2)
  else
    match pyChoice inds rng1 with
    | .error e => .error e
    | .ok c => .ok ({ text := c.1.text }, c.2)

/-- The bounded offspring loop of `evolve_generation` (fuel is the remaining
attempt budget out of `population_size * 10`): mutate each offspring, skip
duplicates, score and append the rest. -/
def offspringLoop (o : Oracle) (st : EAState) (inds : List Individual) :
    Nat → List Individual → List (List Char) → Rng →
    Except String (List Individual × List (List Char) × Rng)
  | 0, acc, used, rng => .ok (acc, used, rng)
  | fuel + 1, acc, used, rng =>
    if st.population_size ≤ acc.length then .ok (acc, used, rng)
    else
      match offspringStep st inds rng with
      | .error e => .error e
      | .ok pr =>
        let md := mutate st.mutation_rate pr.1 pr.2
        if md.1.text ∈ used then offspringLoop o st inds fuel acc used md.2
        else
          offspringLoop o st inds fuel
            (acc ++ [{ md.1 with fitness := evaluate_fitness o md.1 }])
            (md.1.text :: used) md.2

/-- The unbounded shortfall-fill loop of `evolve_generation`, made total with
fuel: `none` models an execution that has not terminated within `fuel`
iterations. -/
def fillLoop (o : Oracle) (st : EAState) :
    Nat → List Individual → List (List Char) → Rng →
    Option (List Individual × List (List Char) × Rng)
  | 0, acc, used, rng =>
    if st.population_size ≤ acc.length then some (acc, used, rng) else none
  | fuel + 1, acc, used, rng =>
    if st.population_size ≤ acc.length then some (acc, used, rng)
    else
      let g := generate_initial_variation st rng
      if g.1 ∈ used then fillLoop o st fuel acc used g.2
      else
        fillLoop o st fuel
          (acc ++ [{ text := g.1,
                     fitness := evaluate_fitness o { text := g.1 } }])
          (g.1 :: used) g.2

/-- Method `EvolutionaryAlgorithm.evolve_generation`.  Value `none` models a run whose
shortfall-fill loop does not terminate within `fillFuel` iterations; a raised
exception inside the loops is caught and converted into an error result with
the state unchanged. -/
def evolve_generation (o : Oracle) (st : EAState) (rng : Rng) (fillFuel : Nat) :
    Option (ApiResult × EAState) :=
  match st.population with
  | none =>
    some ({ status := .error,
            message := "No population initialized. Call initialize_population first." }, st)
  | some pop =>
    let inds := pop.individuals
    let elite_count := min st.elite_size inds.length
    let elites := inds.take elite_count
    let used0 := elites.map (·.text)
    match offspringLoop o st inds (st.population_size * 10) elites used0 rng with
    | .error e => some ({ status := .error, message := "Evolution failed: " ++ e }, st)
    | .ok lo =>
      match fillLoop o st fillFuel lo.1 lo.2.1 lo.2.2 with
      | none => none
      | some fo =>
        let truncated := fo.1.take st.population_size
        let pop1 : Population :=
          { pop with individuals := truncated, generation := pop.generation + 1 }
        let pop2 := updateStatistics pop1
        let pop3 := { pop2 with individuals := sort_by_fitness pop2.individuals }
        let st' : EAState :=
          { st with population := some pop3, generation := pop1.generation,
                    fitness_history := st.fitness_history ++ [pop2.best_fitness] }
        some ({ status := .success, generation := pop1.generation,
                best_fitness := pop2.best_fitness,
                average_fitness := pop2.average_fitness,
                population_size := truncated.length }, st')

/-- The sampling loop of `initialize_population`: `n` fresh random individuals,
each scored through the Oracle on creation. -/
def initLoop (o : Oracle) (st : EAState) : Nat → Rng → List Individual × Rng
  | 0, rng => ([], rng)
  | n + 1, rng =>
    let g := generate_initial_variation st rng
    let ind : Individual := { text := g.1, fitness := evaluate_fitness o { text := g.1 } }
    let rest := initLoop o st n g.2
    (ind :: rest.1, rest.2)

/-- Outcome of `initialize_population`: its result dict, the post-call engine
state, and the ordered trace of Oracle operations it invoked. -/
structure InitOut where
  result : ApiResult
  state : EAState
  calls : List String
deriving Repr

/-- Method `EvolutionaryAlgorithm.initialize_population`. -/
def initialize_population (o : Oracle) (st : EAState)
    (target_strings : List (List Char)) (output_length : Nat) (rng : Rng) : InitOut :=
  if target_strings = [] then
    { result := { status := .error, message := "Target strings list cannot be empty" },
      state := st, calls := [] }
  else
    let st1 := { st with output_length := some output_length }
    let tr := o.set_target_strings target_strings
    if tr.1 ≠ .success then
      { result := { status := tr.1, message := tr.2 }, state := st1,
        calls := ["set_target_strings"] }
    else
      let gr := o.get_target_info
      if gr.1 ≠ .success then
        { result := { status := gr.1, message := gr.2 }, state := st1,
          calls := ["set_target_strings", "get_target_info"] }
      else
        let individuals := (initLoop o st1 st.population_size rng).1
        let callsBase := ["set_target_strings", "get_target_info"] ++
          List.replicate st.population_size "compare_against_barycenter" ++
          ["target_barycenter"]
        match o.target_barycenter with
        | none =>
          { result := { status := .error, message := "Target barycenter not properly set" },
            state := st1, calls := callsBase }
        | some tb =>
          if tb.length = 0 then
            { result := { status := .error, message := "Target barycenter is empty" },
              state := st1, calls := callsBase }
          else
            match mkPopulation individuals (some tb) 0 with
            | .error e =>
              { result := { status := .error,
                            message := "Failed to initialize population: " ++ e },
                state := st1, calls := callsBase }
            | .ok pop0 =>
              let pop1 := { pop0 with individuals := sort_by_fitness pop0.individuals }
              let st2 := { st1 with population := some pop1, generation := 0,
                                    fitness_history := [pop1.best_fitness] }
              { result := { status := .success,
                            message := "Population initialized successfully",
                            population_size := individuals.length,
                            best_fitness := pop1.best_fitness,
                            average_fitness := pop1.average_fitness,
                            generation := 0 },
                state := st2, calls := callsBase }

/-- Method `EvolutionaryAlgorithm.get_status`. -/
def get_status (st : EAState) : StatusResult :=
  match st.population with
  | none => { status := .error, message := "No population initialized" }
  | some pop =>
    let n := st.fitness_history.length
    let convergence_rate : Rat :=
      if 5 ≤ n then
        max 0 (st.fitness_history.getD (n - 1) 0 - st.fitness_history.getD (n - 5) 0)
      else 0
    { status := .success,
      current_generation := st.generation,
      best_fitness := pop.best_fitness,
      average_fitness := pop.average_fitness,
      convergence_rate := convergence_rate,
      best_string := ((get_best_individual pop).map (·.text)).getD [],
      is_complete := false,
      population_size := pop.individuals.length }

/-- Individuals of the engine state's current population ([] when
uninitialized). -/
def popIndividuals (st : EAState) : List Individual :=
  match st.population with
  | none => []
  | some p => p.individuals

/-- Status of an `evolve_generation` run (`error` also for the `none` modelling
of a non-terminating run, which never reports success). -/
def evolveStatus (o : Oracle) (st : EAState) (rng : Rng) (fillFuel : Nat) : RStatus :=
  match evolve_generation o st rng fillFuel with
  | some x => x.1.status
  | none => .error

/-- Engine state after an `evolve_generation` run (unchanged for the `none`
modelling of a non-terminating run). -/
def evolveState (o : Oracle) (st : EAState) (rng : Rng) (fillFuel : Nat) : EAState :=
  match evolve_generation o st rng fillFuel with
  | some x => x.2
  | none => st

/-- Descending-by-fitness check on a list of individuals. -/
def sortedDesc : List Individual → Bool
  | [] => true
  | [_] => true
  | a :: b :: t => decide (b.fitness ≤ a.fitness) && sortedDesc (b :: t)

/-- Does `w` occur as a leading block of `s`? -/
def leadsWith : List Char → List Char → Bool
  | [], _ => true
  | _ :: _, [] => false
  | a :: as, b :: bs => a == b && leadsWith as bs

/-- Does `w` occur as a contiguous block anywhere in `s`? -/
def containsChars (w : List Char) : List Char → Bool
  | [] => w.isEmpty
  | c :: rest => leadsWith w (c :: rest) || containsChars w rest

/-! Helper lemmas -/

/-- A dropped-whitespace list is all-whitespace iff the original is. -/
theorem all_space_dropWhile_iff (s : List Char) :
    (∀ x ∈ s.dropWhile isPySpace, isPySpace x = true) ↔
      (∀ c ∈ s, isPySpace c = true) := by
  constructor
  · intro h c hc
    rcases List.mem_append.mp
        ((List.takeWhile_append_dropWhile isPySpace s) ▸ hc) with h1 | h2
    · exact List.mem_takeWhile_imp h1
    · exact h c h2
  · intro h x hx
    exact h x ((List.dropWhile_sublist isPySpace).subset hx)

/-- Stripping with `pyStrip` yields the empty string exactly when every character is
whitespace. -/
theorem pyStrip_eq_nil_iff (s : List Char) :
    pyStrip s = [] ↔ ∀ c ∈ s, isPySpace c = true := by
  unfold pyStrip
  rw [List.reverse_eq_nil_iff, List.dropWhile_eq_nil_iff]
  constructor
  · intro h
    exact (all_space_dropWhile_iff s).mp
      (fun x hx => h x (List.mem_reverse.mpr hx))
  · intro h x hx
    exact (all_space_dropWhile_iff s).mpr h x (List.mem_reverse.mp hx)

/-- Space-padding does not affect whether all characters are whitespace. -/
theorem ljust_all_space_iff (s : List Char) (n : Nat) :
    (∀ c ∈ ljust s n, isPySpace c = true) ↔ (∀ c ∈ s, isPySpace c = true) := by
  unfold ljust
  constructor
  · intro h c hc
    exact h c (List.mem_append_left _ hc)
  · intro h c hc
    rcases List.mem_append.mp hc with h1 | h2
    · exact h c h1
    · rw [List.eq_of_mem_replicate h2]; rfl

/-- Scored fitness is never negative. -/
theorem evaluate_fitness_nonneg (o : Oracle) (ind : Individual) :
    0 ≤ evaluate_fitness o ind := by
  unfold evaluate_fitness
  cases h : o.compare ind.text with
  | error e => exact le_refl 0
  | ok v =>
    cases v with
    | none => exact le_refl 0
    | some sim => exact le_max_left 0 _

/-- Scored fitness never exceeds 1. -/
theorem evaluate_fitness_le_one (o : Oracle) (ind : Individual) :
    evaluate_fitness o ind ≤ 1 := by
  unfold evaluate_fitness
  cases h : o.compare ind.text with
  | error e => norm_num
  | ok v =>
    cases v with
    | none => norm_num
    | some sim => exact max_le (by norm_num) (min_le_left 1 sim)

/-- Reversed indexing translated to forward indexing. -/
theorem getD_reverse_eq (l : List Rat) (i : Nat) (h : i < l.length) (d : Rat) :
    l.reverse.getD i d = l.getD (l.length - 1 - i) d := by
  rw [List.getD_eq_getElem?_getD, List.getD_eq_getElem?_getD,
    List.getElem?_reverse h]

/-- Membership through stable descending insert. -/
theorem mem_insertByFitness (a x : Individual) (l : List Individual) :
    a ∈ insertByFitness x l ↔ a = x ∨ a ∈ l := by
  induction l with
  | nil => simp [insertByFitness]
  | cons b t ih =>
    simp only [insertByFitness]
    split
    · simp only [List.mem_cons, ih]
      tauto
    · simp only [List.mem_cons]

/-- Sorting by fitness preserves membership. -/
theorem mem_sort_by_fitness (a : Individual) (l : List Individual) :
    a ∈ sort_by_fitness l ↔ a ∈ l := by
  induction l with
  | nil => simp [sort_by_fitness]
  | cons x xs ih =>
    simp only [sort_by_fitness, mem_insertByFitness, ih, List.mem_cons]

/-- Stable descending insert adds exactly one element. -/
theorem length_insertByFitness (x : Individual) (l : List Individual) :
    (insertByFitness x l).length = l.length + 1 := by
  induction l with
  | nil => rfl
  | cons b t ih =>
    simp only [insertByFitness]
    split
    · simp [ih]
    · simp

/-- Sorting by fitness preserves length. -/
theorem length_sort_by_fitness (l : List Individual) :
    (sort_by_fitness l).length = l.length := by
  induction l with
  | nil => rfl
  | cons x xs ih =>
    simp only [sort_by_fitness, length_insertByFitness, ih, List.length_cons]

/-! Claim theorems -/

/-- Shared concrete random source for witnesses: `random.random()` always
draws 0 and the integer stream is constantly 0. -/
def witRng : Rng := { floats := fun _ => 0, nats := fun _ => 0 }

/-- C10: constructing a `Population` with `target_barycenter = None` succeeds
without any error for every list of individuals — the hard validation error
applies only to a present, zero-length target vector — and the resulting value
carries exactly the given individuals. -/
theorem population_none_target_constructible (inds : List Individual) (g : Nat) :
    ∃ p : Population, mkPopulation inds none g = .ok p ∧
      p.individuals = inds ∧ p.target_barycenter = none := by
  unfold mkPopulation
  by_cases h : inds = []
  · refine ⟨_, rfl, ?_, ?_⟩ <;> simp [h]
  · refine ⟨_, rfl, ?_, ?_⟩ <;> simp [h, updateStatistics]

/-- C7: `initialize_population` on an empty target-string list returns an
error result whose message mentions emptiness, invokes no Oracle operation,
and leaves the engine state unchanged. -/
theorem initialize_population_empty_rejected (o : Oracle) (st : EAState)
    (ol : Nat) (rng : Rng) :
    (initialize_population o st [] ol rng).result.status = .error ∧
    containsChars "empty".toList
      (initialize_population o st [] ol rng).result.message.toList = true ∧
    (initialize_population o st [] ol rng).calls = [] ∧
    (initialize_population o st [] ol rng).state = st :=
  ⟨rfl, rfl, rfl, rfl⟩

/-- Convergence-rate formula as the spec states it: `max(0, history[-1] -
history[-5])` when at least 5 entries exist, else 0 (negative indices read off
the reversed sequence). -/
def specConvergenceRate (hist : List Rat) : Rat :=
  if 5 ≤ hist.length then
    max 0 (hist.reverse.getD 0 0 - hist.reverse.getD 4 0)
  else 0

/-- C9: for every initialized engine state, `get_status` reports
`convergence_rate = max(0, fitness_history[-1] - fitness_history[-5])` when
the fitness history has at least 5 entries, and 0 otherwise. -/
theorem get_status_convergence_rate (st : EAState)
    (h : st.population.isSome = true) :
    (get_status st).convergence_rate = specConvergenceRate st.fitness_history := by
  obtain ⟨pop, hp⟩ := Option.isSome_iff_exists.mp h
  simp only [get_status, hp, specConvergenceRate]
  by_cases h5 : 5 ≤ st.fitness_history.length
  · rw [if_pos h5, if_pos h5,
      getD_reverse_eq _ 0 (by omega) 0, getD_reverse_eq _ 4 (by omega) 0]
    congr 2
  · rw [if_neg h5, if_neg h5]

/-- Concrete initialized state exercising the convergence-rate formula. -/
def witStatusState : EAState :=
  { population_size := 2, elite_size := 1, tournament_size := 1,
    crossover_rate := 0, mutation_rate := 0,
    population := some { individuals := [{ text := "a".toList, fitness := 1 }],
                         target_barycenter := none,
                         best_fitness := 1, average_fitness := 1 },
    fitness_history := [1/10, 2/10, 3/10, 4/10, 1] }

/-- Witness for C9 at a concrete initialized state with a 5-entry history. -/
theorem get_status_convergence_rate_witness :
    witStatusState.population.isSome = true ∧
    (get_status witStatusState).convergence_rate =
      specConvergenceRate witStatusState.fitness_history :=
  ⟨by decide, get_status_convergence_rate witStatusState (by decide)⟩


/-- Deleting one position from a text of length > 1 leaves it non-empty. -/
theorem take_drop_del_ne_nil (t : List Char) (n : Nat) (h : 1 < t.length) :
    t.take (n % t.length) ++ t.drop (n % t.length + 1) ≠ [] := by
  intro hnil
  have hpos : n % t.length < t.length := Nat.mod_lt _ (by omega)
  have hlen := congrArg List.length hnil
  simp only [List.length_append, List.length_take, List.length_drop,
    List.length_nil] at hlen
  rw [Nat.min_eq_left (Nat.le_of_lt hpos)] at hlen
  omega

/-- Substitution never empties a non-empty text. -/
theorem mutateSub_ne_nil (rate : Rat) (t : List Char) (rng : Rng)
    (h : t ≠ []) : (mutateSub rate t rng).1 ≠ [] := by
  by_cases h1 : rng.floats rng.fpos < rate
  · by_cases h2 : t = []
    · exact absurd h2 h
    · simp [mutateSub, h1, h2, nextRandom]
  · simp [mutateSub, h1, nextRandom, h]

/-- Insertion never empties a non-empty text. -/
theorem mutateIns_ne_nil (rate : Rat) (t : List Char) (rng : Rng)
    (h : t ≠ []) : (mutateIns rate t rng).1 ≠ [] := by
  by_cases h1 : rng.floats rng.fpos < rate
  · by_cases h2 : t = []
    · exact absurd h2 h
    · simp [mutateIns, h1, h2, nextRandom]
  · simp [mutateIns, h1, nextRandom, h]

/-- Deletion fires only on texts of length > 1 and therefore never empties a
non-empty text. -/
theorem mutateDel_ne_nil (rate : Rat) (t : List Char) (rng : Rng)
    (h : t ≠ []) : (mutateDel rate t rng).1 ≠ [] := by
  by_cases h1 : rng.floats rng.fpos < rate
  · by_cases h2 : 1 < t.length
    · simp only [mutateDel, nextRandom, h1, h2, if_pos, if_true]
      exact take_drop_del_ne_nil t _ h2
    · simp [mutateDel, h1, h2, nextRandom, h]
  · simp [mutateDel, h1, nextRandom, h]

/-- C8: for every input Individual whose text is non-empty, mutation returns
an Individual with non-empty text — the deletion trial only fires when the
current text has length greater than 1, so in particular a length-1 string is
never reduced to length 0, regardless of which of the three Bernoulli trials
fire. -/
theorem mutate_preserves_nonempty_text (rate : Rat) (ind : Individual)
    (rng : Rng) (h : ind.text ≠ []) : (mutate rate ind rng).1.text ≠ [] := by
  have h1 := mutateSub_ne_nil rate ind.text rng h
  have h2 := mutateIns_ne_nil rate (mutateSub rate ind.text rng).1
    (mutateSub rate ind.text rng).2 h1
  have h3 := mutateDel_ne_nil rate
    (mutateIns rate (mutateSub rate ind.text rng).1 (mutateSub rate ind.text rng).2).1
    (mutateIns rate (mutateSub rate ind.text rng).1 (mutateSub rate ind.text rng).2).2 h2
  simpa [mutate] using h3

/-- Witness for C8: mutating a length-1 string with mutation rate 1 (all three
trials fire) still yields non-empty text. -/
theorem mutate_preserves_nonempty_text_witness :
    ({ text := "a".toList } : Individual).text ≠ [] ∧
    (mutate 1 { text := "a".toList } witRng).1.text ≠ [] :=
  ⟨by decide, mutate_preserves_nonempty_text 1 { text := "a".toList } witRng (by decide)⟩

/-- C6: for every pair of parents of which at least one text contains a
non-whitespace character, and every outcome of the per-position coin flips,
the crossover offspring's text is non-empty: when the stripped mix is empty,
the offspring falls back to parent 1's stripped (padded) text if that is
non-empty, else to parent 2's. -/
theorem crossover_nonempty (p1 p2 : Individual) (rng : Rng)
    (h : (∃ c ∈ p1.text, isPySpace c = false) ∨
         (∃ c ∈ p2.text, isPySpace c = false)) :
    (crossover p1 p2 rng).1.text ≠ [] := by
  simp only [crossover]
  set L := max p1.text.length p2.text.length with hL
  by_cases hs : pyStrip (mixChars (ljust p1.text L) (ljust p2.text L) rng).1 = []
  · rw [if_pos hs]
    by_cases h1 : pyStrip (ljust p1.text L) = []
    · rw [if_pos h1]
      intro h2
      have hall2 : ∀ c ∈ p2.text, isPySpace c = true :=
        (ljust_all_space_iff p2.text L).mp ((pyStrip_eq_nil_iff _).mp h2)
      have hall1 : ∀ c ∈ p1.text, isPySpace c = true :=
        (ljust_all_space_iff p1.text L).mp ((pyStrip_eq_nil_iff _).mp h1)
      rcases h with ⟨c, hc, hcf⟩ | ⟨c, hc, hcf⟩
      · rw [hall1 c hc] at hcf; exact Bool.noConfusion hcf
      · rw [hall2 c hc] at hcf; exact Bool.noConfusion hcf
    · rw [if_neg h1]; exact h1
  · rw [if_neg hs]; exact hs

/-- Witness for C6: crossing an all-space parent with `"ab"` yields non-empty
offspring text. -/
theorem crossover_nonempty_witness :
    (∃ c ∈ (({ text := "ab".toList } : Individual)).text, isPySpace c = false) ∧
    (crossover { text := "  ".toList } { text := "ab".toList } witRng).1.text ≠ [] :=
  ⟨by decide, crossover_nonempty { text := "  ".toList } { text := "ab".toList } witRng
    (Or.inr (by decide))⟩

/-- Sampling `k ≤ |l|` elements yields exactly `k` picks. -/
theorem pySampleAux_length : ∀ (k : Nat) (l : List Individual) (rng : Rng),
    k ≤ l.length → (pySampleAux k l rng).1.length = k := by
  intro k
  induction k with
  | zero => intro l rng _; rfl
  | succ n ih =>
    intro l rng h
    cases l with
    | nil => simp at h
    | cons x xs =>
      simp only [pySampleAux, List.length_cons]
      have hrest : ((x :: xs).eraseIdx ((nextNat rng).1 % (xs.length + 1))).length
          = xs.length := by
        rw [List.length_eraseIdx]
        have : (nextNat rng).1 % (xs.length + 1) < (x :: xs).length := by
          simp only [List.length_cons]
          exact Nat.mod_lt _ (by omega)
        rw [if_pos this]
        simp
      have hn : n ≤ ((x :: xs).eraseIdx ((nextNat rng).1 % (xs.length + 1))).length := by
        rw [hrest]
        simp only [List.length_cons] at h
        omega
      rw [ih _ _ hn]

/-- Taking the fittest of a non-empty tournament cannot raise. -/
theorem pyMaxByFitness_ok (l : List Individual) (h : l ≠ []) :
    ∃ w, pyMaxByFitness l = .ok w := by
  cases l with
  | nil => exact absurd rfl h
  | cons x xs => exact ⟨_, rfl⟩

/-- Choosing from a non-empty sequence cannot raise. -/
theorem pyChoice_ok (l : List Individual) (rng : Rng) (h : l ≠ []) :
    ∃ out, pyChoice l rng = .ok out := by
  cases l with
  | nil => exact absurd rfl h
  | cons x xs => exact ⟨_, rfl⟩

/-- With `1 ≤ tournament_size ≤ |population|`, parent selection cannot raise. -/
theorem select_parents_ok (st : EAState) (inds : List Individual) (rng : Rng)
    (h1 : 1 ≤ st.tournament_size) (h2 : st.tournament_size ≤ inds.length) :
    ∃ out, select_parents st inds rng = .ok out := by
  have hsamp : pySample inds st.tournament_size rng =
      .ok (pySampleAux st.tournament_size inds rng) := by
    unfold pySample
    rw [if_neg (by omega)]
  have hlen := pySampleAux_length st.tournament_size inds rng h2
  have hne : (pySampleAux st.tournament_size inds rng).1 ≠ [] := by
    intro hnil
    rw [hnil] at hlen
    simp at hlen
    omega
  obtain ⟨w, hw⟩ := pyMaxByFitness_ok _ hne
  simp only [select_parents, hsamp, hw]
  by_cases hf : ((nextRandom (pySampleAux st.tournament_size inds rng).2).1 < (1/4 : Rat))
  · rw [if_pos hf]
    exact ⟨_, rfl⟩
  · rw [if_neg hf]
    by_cases hg : st.tournament_size ≤
        (inds.filter (fun i => decide (i ≠ w))).length
    · rw [if_pos hg]
      have hsamp2 : pySample (inds.filter (fun i => decide (i ≠ w)))
          st.tournament_size (nextRandom (pySampleAux st.tournament_size inds rng).2).2 =
          .ok (pySampleAux st.tournament_size (inds.filter (fun i => decide (i ≠ w)))
            (nextRandom (pySampleAux st.tournament_size inds rng).2).2) := by
        unfold pySample
        rw [if_neg (by omega)]
      rw [hsamp2]
      exact ⟨_, rfl⟩
    · rw [if_neg hg]
      exact ⟨_, rfl⟩

/-- With `1 ≤ tournament_size ≤ |population|`, one offspring construction
cannot raise (both the crossover and the clone branch are safe). -/
theorem offspringStep_ok (st : EAState) (inds : List Individual) (rng : Rng)
    (h1 : 1 ≤ st.tournament_size) (h2 : st.tournament_size ≤ inds.length) :
    ∃ out, offspringStep st inds rng = .ok out := by
  have hne : inds ≠ [] := by
    intro hnil
    rw [hnil] at h2
    simp at h2
    omega
  simp only [offspringStep]
  by_cases hf : (nextRandom rng).1 < st.crossover_rate
  · rw [if_pos hf]
    obtain ⟨ps, hps⟩ := select_parents_ok st inds (nextRandom rng).2 h1 h2
    rw [hps]
    exact ⟨_, rfl⟩
  · rw [if_neg hf]
    obtain ⟨c, hc⟩ := pyChoice_ok inds (nextRandom rng).2 hne
    rw [hc]
    exact ⟨_, rfl⟩

/-- The offspring loop only ever appends to its accumulator. -/
theorem offspringLoop_extends (o : Oracle) (st : EAState) (inds : List Individual) :
    ∀ (fuel : Nat) (acc : List Individual) (used : List (List Char)) (rng : Rng)
      (out : List Individual × List (List Char) × Rng),
      offspringLoop o st inds fuel acc used rng = .ok out →
      ∃ t, out.1 = acc ++ t := by
  intro fuel
  induction fuel with
  | zero =>
    intro acc used rng out hout
    simp only [offspringLoop, Except.ok.injEq] at hout
    exact ⟨[], by rw [← hout, List.append_nil]⟩
  | succ n ih =>
    intro acc used rng out hout
    simp only [offspringLoop] at hout
    split at hout
    · simp only [Except.ok.injEq] at hout
      exact ⟨[], by rw [← hout, List.append_nil]⟩
    · split at hout
      · exact absurd hout (by simp)
      · split at hout
        · exact ih _ _ _ _ hout
        · obtain ⟨t, ht⟩ := ih _ _ _ _ hout
          exact ⟨_, ht.trans (List.append_assoc _ _ _)⟩

/-- With `1 ≤ tournament_size ≤ |population|`, the offspring loop cannot
raise, whatever its random draws. -/
theorem offspringLoop_ok (o : Oracle) (st : EAState) (inds : List Individual)
    (h1 : 1 ≤ st.tournament_size) (h2 : st.tournament_size ≤ inds.length) :
    ∀ (fuel : Nat) (acc : List Individual) (used : List (List Char)) (rng : Rng),
      ∃ out, offspringLoop o st inds fuel acc used rng = .ok out := by
  intro fuel
  induction fuel with
  | zero => intro acc used rng; exact ⟨_, rfl⟩
  | succ n ih =>
    intro acc used rng
    simp only [offspringLoop]
    by_cases hlen : st.population_size ≤ acc.length
    · rw [if_pos hlen]
      exact ⟨_, rfl⟩
    · rw [if_neg hlen]
      obtain ⟨pr, hpr⟩ := offspringStep_ok st inds rng h1 h2
      simp only [hpr]
      by_cases hmem : (mutate st.mutation_rate pr.1 pr.2).1.text ∈ used
      · rw [if_pos hmem]
        exact ih _ _ _
      · rw [if_neg hmem]
        exact ih _ _ _

/-- Every individual the offspring loop adds is scored through
`evaluate_fitness`, so fitness bounds on the accumulator are preserved. -/
theorem offspringLoop_bounded (o : Oracle) (st : EAState) (inds : List Individual) :
    ∀ (fuel : Nat) (acc : List Individual) (used : List (List Char)) (rng : Rng)
      (out : List Individual × List (List Char) × Rng),
      (∀ i ∈ acc, 0 ≤ i.fitness ∧ i.fitness ≤ 1) →
      offspringLoop o st inds fuel acc used rng = .ok out →
      ∀ i ∈ out.1, 0 ≤ i.fitness ∧ i.fitness ≤ 1 := by
  intro fuel
  induction fuel with
  | zero =>
    intro acc used rng out hacc hout
    simp only [offspringLoop, Except.ok.injEq] at hout
    rw [← hout]
    exact hacc
  | succ n ih =>
    intro acc used rng out hacc hout
    simp only [offspringLoop] at hout
    split at hout
    · simp only [Except.ok.injEq] at hout
      rw [← hout]
      exact hacc
    · split at hout
      · exact absurd hout (by simp)
      · split at hout
        · exact ih _ _ _ _ hacc hout
        · refine ih _ _ _ _ ?_ hout
          intro i hi
          rcases List.mem_append.mp hi with hi1 | hi2
          · exact hacc i hi1
          · rw [List.mem_singleton] at hi2
            subst hi2
            exact ⟨evaluate_fitness_nonneg o _, evaluate_fitness_le_one o _⟩

/-- The fill loop only ever appends to its accumulator. -/
theorem fillLoop_extends (o : Oracle) (st : EAState) :
    ∀ (fuel : Nat) (acc : List Individual) (used : List (List Char)) (rng : Rng)
      (out : List Individual × List (List Char) × Rng),
      fillLoop o st fuel acc used rng = some out →
      ∃ t, out.1 = acc ++ t := by
  intro fuel
  induction fuel with
  | zero =>
    intro acc used rng out hout
    simp only [fillLoop] at hout
    split at hout
    · simp only [Option.some.injEq] at hout
      exact ⟨[], by rw [← hout, List.append_nil]⟩
    · exact absurd hout (by simp)
  | succ n ih =>
    intro acc used rng out hout
    simp only [fillLoop] at hout
    split at hout
    · simp only [Option.some.injEq] at hout
      exact ⟨[], by rw [← hout, List.append_nil]⟩
    · split at hout
      · exact ih _ _ _ _ hout
      · obtain ⟨t, ht⟩ := ih _ _ _ _ hout
        exact ⟨_, ht.trans (List.append_assoc _ _ _)⟩

/-- When the fill loop terminates it has reached at least `population_size`
individuals. -/
theorem fillLoop_min_length (o : Oracle) (st : EAState) :
    ∀ (fuel : Nat) (acc : List Individual) (used : List (List Char)) (rng : Rng)
      (out : List Individual × List (List Char) × Rng),
      fillLoop o st fuel acc used rng = some out →
      st.population_size ≤ out.1.length := by
  intro fuel
  induction fuel with
  | zero =>
    intro acc used rng out hout
    simp only [fillLoop] at hout
    split at hout
    · simp only [Option.some.injEq] at hout
      rw [← hout]
      assumption
    · exact absurd hout (by simp)
  | succ n ih =>
    intro acc used rng out hout
    simp only [fillLoop] at hout
    split at hout
    · simp only [Option.some.injEq] at hout
      rw [← hout]
      assumption
    · split at hout
      · exact ih _ _ _ _ hout
      · exact ih _ _ _ _ hout

/-- Every individual the fill loop adds is scored through `evaluate_fitness`,
so fitness bounds on the accumulator are preserved. -/
theorem fillLoop_bounded (o : Oracle) (st : EAState) :
    ∀ (fuel : Nat) (acc : List Individual) (used : List (List Char)) (rng : Rng)
      (out : List Individual × List (List Char) × Rng),
      (∀ i ∈ acc, 0 ≤ i.fitness ∧ i.fitness ≤ 1) →
      fillLoop o st fuel acc used rng = some out →
      ∀ i ∈ out.1, 0 ≤ i.fitness ∧ i.fitness ≤ 1 := by
  intro fuel
  induction fuel with
  | zero =>
    intro acc used rng out hacc hout
    simp only [fillLoop] at hout
    split at hout
    · simp only [Option.some.injEq] at hout
      rw [← hout]
      exact hacc
    · exact absurd hout (by simp)
  | succ n ih =>
    intro acc used rng out hacc hout
    simp only [fillLoop] at hout
    split at hout
    · simp only [Option.some.injEq] at hout
      rw [← hout]
      exact hacc
    · split at hout
      · exact ih _ _ _ _ hacc hout
      · refine ih _ _ _ _ ?_ hout
        intro i hi
        rcases List.mem_append.mp hi with hi1 | hi2
        · exact hacc i hi1
        · rw [List.mem_singleton] at hi2
          subst hi2
          exact ⟨evaluate_fitness_nonneg o _, evaluate_fitness_le_one o _⟩

/-- Saturated take: taking `min n |l|` equals taking `n`. -/
theorem take_min_len (l : List Individual) (n : Nat) :
    l.take (min n l.length) = l.take n := by
  by_cases h : n ≤ l.length
  · rw [Nat.min_eq_left h]
  · rw [Nat.min_eq_right (by omega), List.take_length,
      List.take_of_length_le (by omega)]

/-- Unpacking a successful `evolveStatus` into the underlying run. -/
theorem evolveStatus_success_elim (o : Oracle) (st : EAState) (rng : Rng)
    (f : Nat) (hs : evolveStatus o st rng f = .success) :
    ∃ r st', evolve_generation o st rng f = some (r, st') ∧
      r.status = .success ∧ evolveState o st rng f = st' := by
  unfold evolveStatus at hs
  cases hret : evolve_generation o st rng f with
  | none =>
    rw [hret] at hs
    exact absurd hs (by simp)
  | some pr =>
    rw [hret] at hs
    exact ⟨pr.1, pr.2, rfl, hs, by unfold evolveState; rw [hret]⟩

/-- Case analysis on a terminating `evolve_generation` run: either an error
result with the state unchanged, or the success path through the two loops,
truncation to `population_size` and the final sort. -/
theorem evolve_generation_cases (o : Oracle) (st : EAState) (rng : Rng)
    (f : Nat) (r : ApiResult) (st' : EAState)
    (hret : evolve_generation o st rng f = some (r, st')) :
    (r.status = .error ∧ st' = st) ∨
    (r.status = .success ∧
      ∃ pop lo fo,
        st.population = some pop ∧
        offspringLoop o st pop.individuals (st.population_size * 10)
          (pop.individuals.take (min st.elite_size pop.individuals.length))
          ((pop.individuals.take (min st.elite_size pop.individuals.length)).map (·.text))
          rng = .ok lo ∧
        fillLoop o st f lo.1 lo.2.1 lo.2.2 = some fo ∧
        ∃ pop', st'.population = some pop' ∧
          pop'.individuals = sort_by_fitness (fo.1.take st.population_size)) := by
  cases hpop : st.population with
  | none =>
    simp only [evolve_generation, hpop, Option.some.injEq, Prod.mk.injEq] at hret
    left
    exact ⟨by rw [← hret.1], hret.2.symm⟩
  | some pop =>
    simp only [evolve_generation, hpop] at hret
    split at hret
    · simp only [Option.some.injEq, Prod.mk.injEq] at hret
      left
      exact ⟨by rw [← hret.1], hret.2.symm⟩
    · split at hret
      · exact absurd hret (by simp)
      · rename_i x1 lo hlo x2 fo hfill
        simp only [Option.some.injEq, Prod.mk.injEq] at hret
        right
        refine ⟨by rw [← hret.1], pop, lo, fo, rfl, hlo, hfill, ?_⟩
        rw [← hret.2]
        exact ⟨_, rfl, rfl⟩

/-- Oracle whose comparison always raises (models a failing Fitness Oracle). -/
def failOracle : Oracle :=
  { set_target_strings := fun _ => (.success, ""),
    get_target_info := (.success, ""),
    target_barycenter := some [1],
    compare := fun _ => .error "oracle failure" }

/-- Single-individual population used by concrete run scenarios. -/
def basePop : Population :=
  { individuals := [{ text := "a".toList, fitness := 1 }],
    target_barycenter := none, best_fitness := 1, average_fitness := 1 }

/-- Concrete initialized engine state on which one generation step succeeds
(clone branch, mutation firing, one offspring scored). -/
def stepState : EAState :=
  { population_size := 2, elite_size := 1, tournament_size := 1,
    crossover_rate := 0, mutation_rate := 1, population := some basePop,
    output_length := some 3 }

/-- C1: whenever `evolve_generation` reports success, the resulting population
holds exactly `population_size` individuals — the offspring loop, the
shortfall fill and the final truncation together enforce the size invariant. -/
theorem evolve_generation_size_invariant (o : Oracle) (st : EAState) (rng : Rng)
    (fillFuel : Nat) (hs : evolveStatus o st rng fillFuel = .success) :
    (evolveState o st rng fillFuel).population.isSome = true ∧
    (popIndividuals (evolveState o st rng fillFuel)).length = st.population_size := by
  obtain ⟨r, st', hret, hstat, hstate⟩ := evolveStatus_success_elim o st rng fillFuel hs
  rcases evolve_generation_cases o st rng fillFuel r st' hret with
    ⟨he, _⟩ | ⟨_, pop, lo, fo, hpop, hlo, hfill, pop', hpop', hind⟩
  · rw [hstat] at he
    exact absurd he (by simp)
  · rw [hstate]
    constructor
    · rw [hpop']
      rfl
    · have hmin := fillLoop_min_length o st fillFuel lo.1 lo.2.1 lo.2.2 fo hfill
      simp only [popIndividuals, hpop']
      rw [hind, length_sort_by_fitness, List.length_take]
      exact Nat.min_eq_left hmin

/-- Witness for C1: a concrete successful step from a 1-individual population
with `population_size = 2` ends with exactly 2 individuals. -/
theorem evolve_generation_size_invariant_witness :
    evolveStatus failOracle stepState witRng 4 = .success ∧
    (popIndividuals (evolveState failOracle stepState witRng 4)).length =
      stepState.population_size :=
  ⟨by decide, (evolve_generation_size_invariant failOracle stepState witRng 4 (by decide)).2⟩

/-- C4: when `elite_size ≤ population_size` and the pre-step population is
sorted descending by fitness, the top `elite_size` individuals are present
unchanged (same text and same fitness) in the population after a successful
`evolve_generation`. -/
theorem evolve_generation_elitism (o : Oracle) (st : EAState) (rng : Rng)
    (fillFuel : Nat)
    (_hsorted : sortedDesc (popIndividuals st) = true)
    (hel : st.elite_size ≤ st.population_size)
    (hs : evolveStatus o st rng fillFuel = .success) :
    ∀ ind ∈ (popIndividuals st).take st.elite_size,
      ind ∈ popIndividuals (evolveState o st rng fillFuel) := by
  obtain ⟨r, st', hret, hstat, hstate⟩ := evolveStatus_success_elim o st rng fillFuel hs
  rcases evolve_generation_cases o st rng fillFuel r st' hret with
    ⟨he, _⟩ | ⟨_, pop, lo, fo, hpop, hlo, hfill, pop', hpop', hind⟩
  · rw [hstat] at he
    exact absurd he (by simp)
  · intro ind hmem
    rw [hstate]
    simp only [popIndividuals, hpop']
    rw [hind, mem_sort_by_fitness]
    have hmem0 : ind ∈ pop.individuals.take st.elite_size := by
      simpa only [popIndividuals, hpop] using hmem
    obtain ⟨t1, ht1⟩ := offspringLoop_extends o st pop.individuals _ _ _ _ _ hlo
    obtain ⟨t2, ht2⟩ := fillLoop_extends o st fillFuel _ _ _ _ hfill
    have hfo : fo.1 =
        pop.individuals.take (min st.elite_size pop.individuals.length) ++ (t1 ++ t2) := by
      rw [ht2, ht1, List.append_assoc]
    rw [hfo, List.take_append_eq_append_take]
    have helen :
        (pop.individuals.take (min st.elite_size pop.individuals.length)).length
          ≤ st.population_size := by
      rw [List.length_take]
      have hle1 : min (min st.elite_size pop.individuals.length)
          pop.individuals.length ≤ min st.elite_size pop.individuals.length :=
        Nat.min_le_left _ _
      have hle2 : min st.elite_size pop.individuals.length ≤ st.elite_size :=
        Nat.min_le_left _ _
      omega
    rw [List.take_of_length_le helen]
    apply List.mem_append_left
    rw [take_min_len]
    exact hmem0

/-- Witness for C4: on a concrete sorted 1-individual population, the elite
individual survives a successful step. -/
theorem evolve_generation_elitism_witness :
    sortedDesc (popIndividuals stepState) = true ∧
    stepState.elite_size ≤ stepState.population_size ∧
    evolveStatus failOracle stepState witRng 4 = .success ∧
    ∀ ind ∈ (popIndividuals stepState).take stepState.elite_size,
      ind ∈ popIndividuals (evolveState failOracle stepState witRng 4) :=
  ⟨by decide, by decide, by decide,
    evolve_generation_elitism failOracle stepState witRng 4 (by decide) (by decide) (by decide)⟩

/-- Every individual sampled at initialization is scored through
`evaluate_fitness`, so its fitness is within bounds. -/
theorem initLoop_bounded (o : Oracle) (st : EAState) :
    ∀ (n : Nat) (rng : Rng), ∀ i ∈ (initLoop o st n rng).1,
      0 ≤ i.fitness ∧ i.fitness ≤ 1 := by
  intro n
  induction n with
  | zero =>
    intro rng i hi
    simp [initLoop] at hi
  | succ m ih =>
    intro rng i hi
    simp only [initLoop, List.mem_cons] at hi
    rcases hi with h1 | h2
    · subst h1
      exact ⟨evaluate_fitness_nonneg o _, evaluate_fitness_le_one o _⟩
    · exact ih _ i h2

/-- Constructing a `Population` carries its individuals through unchanged. -/
theorem mkPopulation_individuals (inds : List Individual) (tb : Option (List Rat))
    (g : Nat) (p : Population) (h : mkPopulation inds tb g = .ok p) :
    p.individuals = inds := by
  cases tb with
  | some v =>
    by_cases hv : v.length = 0
    · simp [mkPopulation, hv] at h
    · simp only [mkPopulation, if_neg hv, Except.ok.injEq] at h
      rw [← h]
      by_cases hi : inds = [] <;> simp [hi, updateStatistics]
  | none =>
    simp only [mkPopulation, Except.ok.injEq] at h
    rw [← h]
    by_cases hi : inds = [] <;> simp [hi, updateStatistics]

/-- Unpacking a successful `initialize_population`: the resulting state's
population is the sorted list of individuals of the constructed `Population`
value, which carries the sampled individuals. -/
theorem initialize_population_success_shape (o : Oracle) (st : EAState)
    (ts : List (List Char)) (ol : Nat) (rng : Rng)
    (hs : (initialize_population o st ts ol rng).result.status = .success) :
    ∃ pop0 : Population,
      pop0.individuals =
        (initLoop o { st with output_length := some ol } st.population_size rng).1 ∧
      popIndividuals (initialize_population o st ts ol rng).state =
        sort_by_fitness pop0.individuals := by
  simp only [initialize_population] at hs ⊢
  split at hs
  · exact absurd hs (by simp)
  · rename_i hts
    split at hs
    · rename_i hset
      dsimp only at hs
      exact absurd hs hset
    · rename_i hset
      split at hs
      · rename_i hget
        dsimp only at hs
        exact absurd hs hget
      · rename_i hget
        split at hs
        · exact absurd hs (by simp)
        · rename_i tb htb
          split at hs
          · exact absurd hs (by simp)
          · rename_i hlen
            split at hs
            · exact absurd hs (by simp)
            · rename_i pop0 hmk
              refine ⟨pop0, mkPopulation_individuals _ _ _ _ hmk, ?_⟩
              simp only [if_neg hts, if_neg hset, if_neg hget, htb, if_neg hlen,
                hmk, popIndividuals]

/-- C5: every Individual ever held in the population has fitness in [0,1] —
each scored fitness is the Oracle's cosine similarity clamped into [0,1]
(failure paths yield 0.0), the bound holds after a successful
`initialize_population`, and it is preserved by every `evolve_generation`. -/
theorem fitness_bounds_invariant :
    (∀ (o : Oracle) (ind : Individual) (sim : Rat),
        o.compare ind.text = .ok (some sim) →
        evaluate_fitness o ind = max 0 (min 1 sim)) ∧
    (∀ (o : Oracle) (st : EAState) (ts : List (List Char)) (ol : Nat) (rng : Rng),
        (initialize_population o st ts ol rng).result.status = .success →
        ∀ i ∈ popIndividuals (initialize_population o st ts ol rng).state,
          0 ≤ i.fitness ∧ i.fitness ≤ 1) ∧
    (∀ (o : Oracle) (st : EAState) (rng : Rng) (fillFuel : Nat),
        (∀ i ∈ popIndividuals st, 0 ≤ i.fitness ∧ i.fitness ≤ 1) →
        ∀ i ∈ popIndividuals (evolveState o st rng fillFuel),
          0 ≤ i.fitness ∧ i.fitness ≤ 1) := by
  refine ⟨?_, ?_, ?_⟩
  · intro o ind sim hcomp
    unfold evaluate_fitness
    rw [hcomp]
  · intro o st ts ol rng hs i hi
    obtain ⟨pop0, hind, hstate⟩ := initialize_population_success_shape o st ts ol rng hs
    rw [hstate, mem_sort_by_fitness, hind] at hi
    exact initLoop_bounded o _ _ _ i hi
  · intro o st rng fillFuel hbound i hi
    unfold evolveState at hi
    cases hret : evolve_generation o st rng fillFuel with
    | none =>
      rw [hret] at hi
      exact hbound i hi
    | some pr =>
      rw [hret] at hi
      dsimp only at hi
      rcases evolve_generation_cases o st rng fillFuel pr.1 pr.2 hret with
        ⟨_, hst⟩ | ⟨_, pop, lo, fo, hpop, hlo, hfill, pop', hpop', hind⟩
      · rw [hst] at hi
        exact hbound i hi
      · simp only [popIndividuals, hpop'] at hi
        rw [hind, mem_sort_by_fitness] at hi
        have hsub := List.take_subset st.population_size fo.1 hi
        have hacc : ∀ j ∈ pop.individuals.take
            (min st.elite_size pop.individuals.length),
            0 ≤ j.fitness ∧ j.fitness ≤ 1 := by
          intro j hj
          refine hbound j ?_
          simp only [popIndividuals, hpop]
          exact List.take_subset _ _ hj
        have hloB := offspringLoop_bounded o st pop.individuals _ _ _ _ lo hacc hlo
        have hfoB := fillLoop_bounded o st fillFuel _ _ _ fo hloB hfill
        exact hfoB i hsub

/-- Witness for C5: a concrete bounded population stays bounded through a
concrete generation step. -/
theorem fitness_bounds_invariant_witness :
    (∀ i ∈ popIndividuals stepState, 0 ≤ i.fitness ∧ i.fitness ≤ 1) ∧
    (∀ i ∈ popIndividuals (evolveState failOracle stepState witRng 4),
      0 ≤ i.fitness ∧ i.fitness ≤ 1) :=
  ⟨by decide, fitness_bounds_invariant.2.2 failOracle stepState witRng 4 (by decide)⟩

/-- Initialized state falsifying C3: one individual but `tournament_size = 3`
and `crossover_rate = 1`, so the first tournament's `random.sample` raises. -/
def cexC3State : EAState :=
  { population_size := 2, elite_size := 1, tournament_size := 3,
    crossover_rate := 1, mutation_rate := 0, population := some basePop,
    output_length := some 3 }

/-- Counterexample to C3: a Population exists, yet `evolve_generation` returns
an error result ("Evolution failed: Sample larger than population or is
negative") because the tournament sample exceeds the population. -/
theorem evolve_error_with_population_cex :
    cexC3State.population.isSome = true ∧
    evolveStatus failOracle cexC3State witRng 4 = .error ∧
    (evolve_generation failOracle cexC3State witRng 4).map
      (fun x => x.1.message) =
      some "Evolution failed: Sample larger than population or is negative" := by
  refine ⟨by decide, by decide, ?_⟩
  rfl

/-- C3 (amended): for every engine state whose Population holds at least
`tournament_size ≥ 1` individuals, every terminating `evolve_generation` call
returns a success result; with fewer individuals than `tournament_size` (or
`tournament_size = 0`) the tournament sampling can raise and the step returns
a structured error result instead. -/
theorem evolve_generation_success_of_tournament_fits (o : Oracle) (st : EAState)
    (rng : Rng) (fillFuel : Nat)
    (hpop : st.population.isSome = true)
    (h1 : 1 ≤ st.tournament_size)
    (h2 : st.tournament_size ≤ (popIndividuals st).length)
    (hsome : (evolve_generation o st rng fillFuel).isSome = true) :
    evolveStatus o st rng fillFuel = .success := by
  obtain ⟨pop, hp⟩ := Option.isSome_iff_exists.mp hpop
  have h2' : st.tournament_size ≤ pop.individuals.length := by
    simpa only [popIndividuals, hp] using h2
  obtain ⟨lo, hlo⟩ := offspringLoop_ok o st pop.individuals h1 h2'
    (st.population_size * 10)
    (pop.individuals.take (min st.elite_size pop.individuals.length))
    ((pop.individuals.take (min st.elite_size pop.individuals.length)).map (·.text))
    rng
  unfold evolveStatus
  cases hfill : fillLoop o st fillFuel lo.1 lo.2.1 lo.2.2 with
  | none =>
    simp only [evolve_generation, hp, hlo, hfill, Option.isSome_none] at hsome
    exact absurd hsome (by simp)
  | some fo =>
    simp only [evolve_generation, hp, hlo, hfill]

/-- Witness for C3 (amended): a concrete state with `tournament_size = 1` and
one individual steps to success. -/
theorem evolve_generation_success_of_tournament_fits_witness :
    stepState.population.isSome = true ∧
    1 ≤ stepState.tournament_size ∧
    stepState.tournament_size ≤ (popIndividuals stepState).length ∧
    (evolve_generation failOracle stepState witRng 4).isSome = true ∧
    evolveStatus failOracle stepState witRng 4 = .success :=
  ⟨by decide, by decide, by decide, by decide,
    evolve_generation_success_of_tournament_fits failOracle stepState witRng 4
      (by decide) (by decide) (by decide) (by decide)⟩

/-- Counterexample to C2: with an Oracle whose comparison always raises, the
step still scores an offspring (text `" "`, receiving fitness 0) and completes
as a success — no structured error result is returned for an Oracle failure
during scoring. -/
theorem oracle_failure_still_success_cex :
    failOracle.compare " ".toList = .error "oracle failure" ∧
    evolveStatus failOracle stepState witRng 4 = .success ∧
    (popIndividuals (evolveState failOracle stepState witRng 4)).map
        (fun i => (i.text, i.fitness)) =
      [("a".toList, (1 : Rat)), (" ".toList, (0 : Rat))] := by
  refine ⟨rfl, by decide, by decide⟩

/-- C2 (amended): an Oracle failure (raised exception or empty result) while
scoring is caught inside `_evaluate_fitness` and turned into fitness 0.0; the
generation step is not interrupted by it. -/
theorem evaluate_fitness_oracle_failure_zero (o : Oracle) (ind : Individual)
    (h : (∃ e, o.compare ind.text = .error e) ∨ o.compare ind.text = .ok none) :
    evaluate_fitness o ind = 0 := by
  unfold evaluate_fitness
  rcases h with ⟨e, he⟩ | hn
  · rw [he]
  · rw [hn]

/-- Witness for C2 (amended): the always-failing Oracle scores a concrete
individual as 0. -/
theorem evaluate_fitness_oracle_failure_zero_witness :
    (∃ e, failOracle.compare "a".toList = .error e) ∧
    evaluate_fitness failOracle { text := "a".toList } = 0 :=
  ⟨⟨"oracle failure", rfl⟩,
    evaluate_fitness_oracle_failure_zero failOracle { text := "a".toList }
      (Or.inl ⟨"oracle failure", rfl⟩)⟩
